import Mathlib

/- Shallow embedding of the radarsat-2-game per-frame simulation core.

   Sources: src/src/game.js (Game orchestrator), src/src/tile.js
   (hold-to-hit Tile and fixed-interval TileSpawner), src/src/main.js
   (coverage-mode Tile and ramped TileSpawner), src/unnamed/part_003
   (coverage-mode Trail and TrailSpawner), and the shared config constants
   (SPHERE_RADIUS, HEIGHT_OFFSET, TILE_WIDTHS, TRAIL_HEIGHT).

   Times, lengths and angles are modelled as rationals.  The square root
   and trigonometric primitives, and the constant Math.PI, only flow into
   rendered mesh coordinates; they are abstracted as explicit function and
   value parameters so every definition stays executable. -/

namespace Radarsat

/-- config.js constant SPHERE_RADIUS = 300. -/
def SPHERE_RADIUS : ℚ := 300

/-- config.js constant HEIGHT_OFFSET = 0.1. -/
def HEIGHT_OFFSET : ℚ := 1/10

/-- config.js constant TILE_WIDTHS = [0.8, 1.5, 2.3]. -/
def TILE_WIDTHS : List ℚ := [4/5, 3/2, 23/10]

/-- part_003 constant TRAIL_HEIGHT = 0.17. -/
def TRAIL_HEIGHT : ℚ := 17/100

/-- main.js and tile.js constant COLUMN_POSITIONS. -/
def COLUMN_POSITIONS : List ℚ := [-9/4, -3/4, 3/4, 9/4]

/-- State of the fixed-interval TileSpawner of src/src/tile.js. -/
structure SpawnerF where
  initialSpawnZ : ℚ
  currentSpawnZ : ℚ
  spawnInterval : ℚ
  tileSpeed : ℚ
  timeSinceLastSpawn : ℚ
deriving DecidableEq

/-- tile.js TileSpawner constructor defaults: spawnZ = -50, spawnInterval = 1.5, tileSpeed = 15. -/
def SpawnerF.mkDefault : SpawnerF :=
  ⟨-50, -50, 3/2, 15, 0⟩

/-- tile.js TileSpawner.update(deltaTime): accumulate time; when the
    accumulator reaches the interval, reset it to zero, move the spawn
    position back by tileSpeed * spawnInterval and emit a tile (Bool). -/
def SpawnerF.update (s : SpawnerF) (deltaTime : ℚ) : SpawnerF × Bool :=
  let t := s.timeSinceLastSpawn + deltaTime
  if s.spawnInterval ≤ t then
    ({ s with timeSinceLastSpawn := 0,
              currentSpawnZ := s.currentSpawnZ - s.tileSpeed * s.spawnInterval }, true)
  else
    ({ s with timeSinceLastSpawn := t }, false)

/-- tile.js TileSpawner.reset(). -/
def SpawnerF.reset (s : SpawnerF) : SpawnerF :=
  { s with currentSpawnZ := s.initialSpawnZ, timeSinceLastSpawn := 0 }

/-- Fold TileSpawner.update over a sequence of frame deltas, counting
    how many tiles were emitted. -/
def SpawnerF.runCount : SpawnerF → List ℚ → SpawnerF × ℕ
  | s, [] => (s, 0)
  | s, d :: ds =>
    match s.update d with
    | (s', spawned) =>
      match SpawnerF.runCount s' ds with
      | (s'', n) => (s'', (if spawned then 1 else 0) + n)

/-- Number of tiles emitted by the fixed-interval spawner over a delta sequence. -/
def SpawnerF.countTiles (s : SpawnerF) (ds : List ℚ) : ℕ :=
  (SpawnerF.runCount s ds).2

/-- State of the ramped-interval TileSpawner of src/src/main.js. -/
structure TileSpawner where
  currentSpawnTheta : ℚ
  angularVelocity : ℚ
  timeSinceLastSpawn : ℚ
  gameTime : ℚ
  startInterval : ℚ
  minInterval : ℚ
  rampDuration : ℚ
deriving DecidableEq

/-- main.js TileSpawner constructor: startInterval = 5, minInterval = 1, rampDuration = 120. -/
def TileSpawner.init (angularVelocity : ℚ) : TileSpawner :=
  ⟨0, angularVelocity, 0, 0, 5, 1, 120⟩

/-- The local progress value of main.js getSpawnInterval:
    Math.min(gameTime / rampDuration, 1). -/
def TileSpawner.rampProgress (s : TileSpawner) : ℚ :=
  min (s.gameTime / s.rampDuration) 1

/-- main.js TileSpawner.getSpawnInterval(): linear interpolation from
    startInterval down to minInterval over rampDuration. -/
def TileSpawner.getSpawnInterval (s : TileSpawner) : ℚ :=
  s.startInterval - (s.startInterval - s.minInterval) * s.rampProgress

/-- main.js TileSpawner.update(deltaTime), tile emission as a Bool. -/
def TileSpawner.update (s : TileSpawner) (deltaTime : ℚ) : TileSpawner × Bool :=
  let s := { s with gameTime := s.gameTime + deltaTime,
                    timeSinceLastSpawn := s.timeSinceLastSpawn + deltaTime }
  let currentInterval := s.getSpawnInterval
  if currentInterval ≤ s.timeSinceLastSpawn then
    ({ s with timeSinceLastSpawn := 0,
              currentSpawnTheta := s.currentSpawnTheta + s.angularVelocity * currentInterval },
     true)
  else
    (s, false)

/-- main.js TileSpawner.reset(). -/
def TileSpawner.reset (s : TileSpawner) : TileSpawner :=
  { s with currentSpawnTheta := 0, timeSinceLastSpawn := 0, gameTime := 0 }

/-- main.js TileSpawner.syncToRotation(groundRotationX). -/
def TileSpawner.syncToRotation (s : TileSpawner) (groundRotationX : ℚ) : TileSpawner :=
  { s with currentSpawnTheta := groundRotationX }

/-- State of the hold-to-hit Tile of src/src/tile.js (graphics handles omitted). -/
structure TileH where
  depth : ℚ
  clickable : Bool
  hitProgress : ℚ
  isBeingHit : Bool
  scored : Bool
deriving DecidableEq

/-- tile.js Tile.startHit(). -/
def TileH.startHit (t : TileH) : Bool × TileH :=
  if t.clickable then (true, { t with isBeingHit := true }) else (false, t)

/-- tile.js Tile.completeHit(). -/
def TileH.completeHit (t : TileH) : TileH :=
  { t with clickable := false, isBeingHit := false }

/-- tile.js Tile.updateHit(deltaTime, tileSpeed): progress accrues at
    tileSpeed / TILE_DEPTH per second while being hit and clickable;
    completing at progress ≥ 1. -/
def TileH.updateHit (t : TileH) (deltaTime tileSpeed : ℚ) : TileH :=
  if t.isBeingHit && t.clickable then
    let progressPerSecond := tileSpeed / t.depth
    let t' := { t with hitProgress := t.hitProgress + deltaTime * progressPerSecond }
    if 1 ≤ t'.hitProgress then t'.completeHit else t'
  else t

/-- tile.js Tile.stopHit(): releases the hit and applies the fixed 0.2
    penalty, clamped at zero. -/
def TileH.stopHit (t : TileH) : TileH :=
  { t with isBeingHit := false, hitProgress := max 0 (t.hitProgress - 1/5) }

/-- Repeated updateHit calls at a fixed tileSpeed (a continuous hold). -/
def TileH.holdRun (speed : ℚ) : TileH → List ℚ → TileH
  | t, [] => t
  | t, d :: ds => TileH.holdRun speed (t.updateHit d speed) ds

/-- State of the coverage-mode Tile of src/src/main.js.  The mesh's
    current absolute z coordinate (which changes as the ground rotates) is
    carried as the field zAbs; the absolute x coordinate is invariant
    under the ground's rotation about the x axis and is carried as x. -/
structure TileC where
  x : ℚ
  width : ℚ
  depth : ℚ
  widthIndex : ℕ
  clickable : Bool
  hasPassedTarget : Bool
  totalCoverageArea : ℚ
  tileArea : ℚ
  coveragePercent : ℚ
  zAbs : ℚ
deriving DecidableEq

/-- main.js Tile.getZBounds().back: trailing edge along z. -/
def TileC.zBoundsBack (t : TileC) : ℚ := t.zAbs - t.depth / 2

/-- main.js Tile.getZBounds().front: leading edge along z. -/
def TileC.zBoundsFront (t : TileC) : ℚ := t.zAbs + t.depth / 2

/-- main.js Tile.getXBounds().left. -/
def TileC.xBoundsLeft (t : TileC) : ℚ := t.x - t.width / 2

/-- main.js Tile.getXBounds().right. -/
def TileC.xBoundsRight (t : TileC) : ℚ := t.x + t.width / 2

/-- The local overlapWidth computed inside main.js Tile.addTrailCoverage:
    clamped length of the x intersection of the trail and the tile. -/
def TileC.overlapWidth (t : TileC) (trailX trailWidth : ℚ) : ℚ :=
  max 0 (min t.xBoundsRight (trailX + trailWidth / 2) -
         max t.xBoundsLeft (trailX - trailWidth / 2))

/-- main.js Tile.addTrailCoverage(trailX, trailWidth, trailHeight). -/
def TileC.addTrailCoverage (t : TileC) (trailX trailWidth trailHeight : ℚ) : TileC :=
  if t.hasPassedTarget then t
  else if 0 < t.overlapWidth trailX trailWidth then
    { t with totalCoverageArea :=
        t.totalCoverageArea + t.overlapWidth trailX trailWidth * trailHeight }
  else t

/-- main.js Tile.checkPassedTarget(). -/
def TileC.checkPassedTarget (t : TileC) : Bool × TileC :=
  if t.hasPassedTarget then (false, t)
  else if 0 < t.zBoundsBack then
    (true, { t with hasPassedTarget := true, clickable := false,
                    coveragePercent := min 100 (t.totalCoverageArea / t.tileArea * 100) })
  else (false, t)

/-- Per-frame checkPassedTarget calls, feeding the tile's current absolute
    z coordinate (produced by the rotating ground) before each call. -/
def TileC.runChecks : TileC → List ℚ → List Bool
  | _, [] => []
  | t, z :: zs =>
    let r := TileC.checkPassedTarget { t with zAbs := z }
    r.1 :: TileC.runChecks r.2 zs

/-- Fold of addTrailCoverage over a list of (trailX, trailWidth, trailHeight). -/
def TileC.applyCoverages : TileC → List (ℚ × ℚ × ℚ) → TileC
  | t, [] => t
  | t, c :: cs => TileC.applyCoverages (t.addTrailCoverage c.1 c.2.1 c.2.2) cs

/-- State of a coverage-mode Trail of src/unnamed/part_003.  The x stored
    by the constructor (already including the -0.3 spawn offset) is the
    mesh's rotation-invariant absolute x; theta is the spawn angle baked
    into the mesh. -/
structure TrailC where
  x : ℚ
  width : ℚ
  widthIndex : ℕ
  theta : ℚ
  age : ℚ
  isHighlighted : Bool
deriving DecidableEq

/-- part_003 spawnTrails angular spacing:
    (TRAIL_HEIGHT * 0.8) / (SPHERE_RADIUS + HEIGHT_OFFSET). -/
def angularSpacing : ℚ := (TRAIL_HEIGHT * (4/5)) / (SPHERE_RADIUS + HEIGHT_OFFSET)

/-- State of the part_003 TrailSpawner. -/
structure TrailSpawnerC where
  trails : List TrailC
  lastSpawnRotation : Option ℚ
  isSpawning : Bool
  spawnX : ℚ
  spawnWidthIndex : ℕ
deriving DecidableEq

/-- part_003 TrailSpawner constructor. -/
def TrailSpawnerC.init : TrailSpawnerC := ⟨[], none, false, 0, 0⟩

/-- part_003 TrailSpawner.startSpawning(x, widthIndex, groundRotation). -/
def TrailSpawnerC.startSpawning (sp : TrailSpawnerC) (x : ℚ) (widthIndex : ℕ)
    (groundRotation : ℚ) : TrailSpawnerC :=
  { sp with
     isSpawning := true
     spawnX := x
     spawnWidthIndex := widthIndex
     lastSpawnRotation := some groundRotation }

/-- part_003 TrailSpawner.updateSpawnPosition(x, widthIndex). -/
def TrailSpawnerC.updateSpawnPosition (sp : TrailSpawnerC) (x : ℚ) (widthIndex : ℕ) :
    TrailSpawnerC :=
  { sp with spawnX := x, spawnWidthIndex := widthIndex }

/-- part_003 TrailSpawner.stopSpawning(). -/
def TrailSpawnerC.stopSpawning (sp : TrailSpawnerC) : TrailSpawnerC :=
  { sp with isSpawning := false, lastSpawnRotation := none }

/-- part_003 TrailSpawner.reset() (trail disposal is a graphics effect). -/
def TrailSpawnerC.reset (sp : TrailSpawnerC) : TrailSpawnerC :=
  { sp with trails := [], lastSpawnRotation := none, isSpawning := false }

/-- The Trail constructed at loop index i inside part_003 spawnTrails:
    spawnRotation = lastSpawnRotation + (i+1) * angularSpacing,
    theta = spawnRotation + pi/2, x = spawnX + xOffset with xOffset -0.3. -/
def mkSpawnedTrail (piQ : ℚ) (sp : TrailSpawnerC) (r : ℚ) (i : ℕ) : TrailC :=
  ⟨sp.spawnX + (-3/10), TILE_WIDTHS.getD sp.spawnWidthIndex 0, sp.spawnWidthIndex,
   r + ((i : ℚ) + 1) * angularSpacing + piQ / 2, 0, false⟩

/-- part_003 TrailSpawner.spawnTrails(groundRotation): emit
    floor(rotationDelta / angularSpacing) trails and advance
    lastSpawnRotation by exactly that many spacings. -/
def TrailSpawnerC.spawnTrails (piQ : ℚ) (sp : TrailSpawnerC) (groundRotation : ℚ) :
    TrailSpawnerC :=
  if sp.isSpawning then
    match sp.lastSpawnRotation with
    | none => sp
    | some r =>
      { sp with
         trails := sp.trails ++
           (List.range (⌊(groundRotation - r) / angularSpacing⌋).toNat).map
             (mkSpawnedTrail piQ sp r)
         lastSpawnRotation :=
           if 0 < ⌊(groundRotation - r) / angularSpacing⌋ then
             some (r + (⌊(groundRotation - r) / angularSpacing⌋ : ℚ) * angularSpacing)
           else sp.lastSpawnRotation }
  else sp

/-- Iterated spawnTrails calls over successive ground rotations. -/
def TrailSpawnerC.spawnTrailsRun (piQ : ℚ) : TrailSpawnerC → List ℚ → TrailSpawnerC
  | sp, [] => sp
  | sp, g :: gs => TrailSpawnerC.spawnTrailsRun piQ (TrailSpawnerC.spawnTrails piQ sp g) gs

/-- The per-tile match test inside part_003 TrailSpawner.update: tile
    still clickable, same width class, trail's absolute z within the
    tile's z bounds, and x overlap (center distance below half-width sum). -/
def trailMatches (tr : TrailC) (trZ : ℚ) (t : TileC) : Prop :=
  t.clickable = true ∧ tr.widthIndex = t.widthIndex
  ∧ (t.zBoundsBack ≤ trZ ∧ trZ ≤ t.zBoundsFront)
  ∧ |tr.x - t.x| < (tr.width + t.width) / 2

instance (tr : TrailC) (trZ : ℚ) (t : TileC) : Decidable (trailMatches tr trZ t) := by
  unfold trailMatches
  infer_instance

/-- The inner for-loop of part_003 TrailSpawner.update for one trail: scan
    tiles in order; on the first match, highlight the trail, add its
    coverage to that tile with TRAIL_HEIGHT, and stop scanning (break). -/
def checkTrailTiles (tr : TrailC) (trZ : ℚ) : List TileC → TrailC × List TileC
  | [] => (tr, [])
  | t :: rest =>
    if trailMatches tr trZ t then
      ({ tr with isHighlighted := true },
       t.addTrailCoverage tr.x tr.width TRAIL_HEIGHT :: rest)
    else
      ((checkTrailTiles tr trZ rest).1, t :: (checkTrailTiles tr trZ rest).2)

/-- One frame of part_003 TrailSpawner.update as seen by a single trail:
    highlighted trails skip the overlap scan entirely. -/
def trailFrame (tr : TrailC) (trZ : ℚ) (tiles : List TileC) : TrailC × List TileC :=
  if tr.isHighlighted then (tr, tiles) else checkTrailTiles tr trZ tiles

/-- Number of frames, over a sequence of (trail z, tile list) frames, in
    which the trail changes some tile's state. -/
def trailFramesChanged (tr : TrailC) : List (ℚ × List TileC) → ℕ
  | [] => 0
  | f :: fs =>
    (if (trailFrame tr f.1 f.2).2 ≠ f.2 then 1 else 0) +
      trailFramesChanged (trailFrame tr f.1 f.2).1 fs

/-- Observable Game state from src/src/game.js (scene, camera, DOM and
    mesh handles omitted; targetZoneX models targetZone.position.x and
    groundRotationX models ground.rotation.x). -/
structure GameState where
  score : ℤ
  lives : ℤ
  gameOver : Bool
  paused : Bool
  isHitting : Bool
  highScore : ℤ
  targetWidthIndex : ℤ
  targetWidth : ℚ
  targetZoneX : ℚ
  groundRotationX : ℚ
  tiles : List TileC
  spawner : TileSpawner
  trailSpawner : TrailSpawnerC
deriving DecidableEq

/-- game.js Game constructor observable state: score 0, lives 3, flags
    false, width index 0, angularVelocity = tileSpeed / sphereRadius
    = 10 / 300. -/
def GameState.init : GameState :=
  ⟨0, 3, false, false, false, 0, 0, TILE_WIDTHS.getD 0 0, 0, 0, [],
   TileSpawner.init (1/30), TrailSpawnerC.init⟩

/-- game.js Game.updateScore(): refresh the score display and raise the
    session high score when the score exceeds it. -/
def GameState.updateScore (g : GameState) : GameState :=
  if g.highScore < g.score then { g with highScore := g.score } else g

/-- game.js Game.setTargetWidthIndex(index): silently rejected when the
    index is out of range or while hitting; otherwise sets the width
    index and width (target-zone mesh rebuild is a graphics effect). -/
def GameState.setTargetWidthIndex (g : GameState) (index : ℤ) : GameState :=
  if index < 0 ∨ (TILE_WIDTHS.length : ℤ) ≤ index then g
  else if g.isHitting then g
  else { g with targetWidthIndex := index, targetWidth := TILE_WIDTHS.getD index.toNat 0 }

/-- game.js Game.restart(): dispose all tiles, reset
    score/lives/gameOver/isHitting/paused, call updateScore (and the
    DOM-only updateLives), reset the target zone to width index 0 at
    x = 0, reset the ground rotation and both spawners. -/
def GameState.restart (g : GameState) : GameState :=
  let g1 : GameState := { g with tiles := [] }
  let g2 : GameState :=
    { g1 with
       score := 0
       lives := 3
       gameOver := false
       isHitting := false
       paused := false }
  let g3 : GameState := GameState.updateScore g2
  { g3 with
     targetWidthIndex := 0
     targetWidth := TILE_WIDTHS.getD 0 0
     targetZoneX := 0
     groundRotationX := 0
     spawner := TileSpawner.reset g3.spawner
     trailSpawner := TrailSpawnerC.reset g3.trailSpawner }

/-- Abstract numeric primitives (Math.sqrt, Math.sin, Math.cos): the
    placement claims are structural identities in these primitives, so
    the embedding treats them as an arbitrary triple of functions. -/
structure TrigPrims where
  sqrtQ : ℚ → ℚ
  sinQ : ℚ → ℚ
  cosQ : ℚ → ℚ

/-- A mesh placement: position (x, y, z) and rotation about the x axis. -/
structure MeshPlacement where
  x : ℚ
  y : ℚ
  z : ℚ
  rotX : ℚ

/-- The placement part of main.js Tile.createMesh: theta = spawnTheta +
    120 * pi / 180, effectiveRadius = sqrt(SPHERE_RADIUS^2 - x^2) +
    HEIGHT_OFFSET, position (x, r sin theta, r cos theta), rotation.x =
    -theta. -/
def tileCreateMeshPlacement (P : TrigPrims) (piQ x spawnTheta : ℚ) : MeshPlacement :=
  ⟨x,
   (P.sqrtQ (SPHERE_RADIUS ^ 2 - x ^ 2) + HEIGHT_OFFSET) *
     P.sinQ (spawnTheta + 120 * piQ / 180),
   (P.sqrtQ (SPHERE_RADIUS ^ 2 - x ^ 2) + HEIGHT_OFFSET) *
     P.cosQ (spawnTheta + 120 * piQ / 180),
   -(spawnTheta + 120 * piQ / 180)⟩

/-- The placement part of part_003 Trail.createMesh: effectiveRadius =
    sqrt(SPHERE_RADIUS^2 - x^2) + HEIGHT_OFFSET, position
    (x, r sin theta, r cos theta), rotation.x = -theta. -/
def trailCreateMeshPlacement (P : TrigPrims) (x theta : ℚ) : MeshPlacement :=
  ⟨x,
   (P.sqrtQ (SPHERE_RADIUS ^ 2 - x ^ 2) + HEIGHT_OFFSET) * P.sinQ theta,
   (P.sqrtQ (SPHERE_RADIUS ^ 2 - x ^ 2) + HEIGHT_OFFSET) * P.cosQ theta,
   -theta⟩

/-- The spherical placement function as worded in the spec (section 4.1):
    y = effectiveRadius sin(theta), z = effectiveRadius cos(theta) with
    effectiveRadius = sqrt(sphereRadius^2 - x^2) + heightOffset, oriented
    by a rotation about the lane axis of -theta. -/
def sphericalPlacementSpec (P : TrigPrims) (x theta : ℚ) : MeshPlacement :=
  ⟨x,
   (P.sqrtQ (SPHERE_RADIUS ^ 2 - x ^ 2) + HEIGHT_OFFSET) * P.sinQ theta,
   (P.sqrtQ (SPHERE_RADIUS ^ 2 - x ^ 2) + HEIGHT_OFFSET) * P.cosQ theta,
   -theta⟩

/- ------------------------------------------------------------------ -/
/- Helper lemmas                                                       -/
/- ------------------------------------------------------------------ -/

theorem checkTrailTiles_nomatch (tr : TrailC) (trZ : ℚ) :
    ∀ ts : List TileC, (∀ u ∈ ts, ¬ trailMatches tr trZ u) →
    checkTrailTiles tr trZ ts = (tr, ts) := by
  intro ts
  induction ts with
  | nil => intro _; rfl
  | cons t rest ih =>
    intro h
    rw [checkTrailTiles, if_neg (h t (by simp)), ih (fun u hu => h u (by simp [hu]))]

theorem checkTrailTiles_firstmatch (tr : TrailC) (trZ : ℚ) :
    ∀ (pre : List TileC) (t : TileC) (post : List TileC),
    (∀ u ∈ pre, ¬ trailMatches tr trZ u) → trailMatches tr trZ t →
    checkTrailTiles tr trZ (pre ++ t :: post) =
      ({ tr with isHighlighted := true },
       pre ++ t.addTrailCoverage tr.x tr.width TRAIL_HEIGHT :: post) := by
  intro pre
  induction pre with
  | nil =>
    intro t post _ hm
    rw [List.nil_append, checkTrailTiles, if_pos hm, List.nil_append]
  | cons u pre ih =>
    intro t post hpre hm
    rw [List.cons_append, checkTrailTiles, if_neg (hpre u (by simp))]
    rw [ih t post (fun v hv => hpre v (by simp [hv])) hm]
    simp

theorem checkTrailTiles_changed_highlighted (tr : TrailC) (trZ : ℚ) :
    ∀ ts : List TileC, (checkTrailTiles tr trZ ts).2 ≠ ts →
    (checkTrailTiles tr trZ ts).1.isHighlighted = true := by
  intro ts
  induction ts with
  | nil => intro h; exact absurd rfl h
  | cons t rest ih =>
    intro h
    rw [checkTrailTiles] at h ⊢
    by_cases hm : trailMatches tr trZ t
    · rw [if_pos hm] at h ⊢
    · rw [if_neg hm] at h ⊢
      apply ih
      intro heq2
      exact h (by rw [heq2])

theorem trailFramesChanged_highlighted (tr : TrailC) (h : tr.isHighlighted = true) :
    ∀ fs, trailFramesChanged tr fs = 0 := by
  intro fs
  induction fs with
  | nil => rfl
  | cons f fs ih =>
    rw [trailFramesChanged]
    have hf : trailFrame tr f.1 f.2 = (tr, f.2) := by rw [trailFrame, if_pos h]
    rw [hf]
    simpa using ih

theorem angularSpacing_pos : 0 < angularSpacing := by
  norm_num [angularSpacing, TRAIL_HEIGHT, SPHERE_RADIUS, HEIGHT_OFFSET]

theorem TrailSpawnerC.spawnTrails_eq (piQ : ℚ) (sp : TrailSpawnerC) (g r : ℚ)
    (hs : sp.isSpawning = true) (hr : sp.lastSpawnRotation = some r) (hle : r ≤ g) :
    TrailSpawnerC.spawnTrails piQ sp g =
      { sp with
         trails := sp.trails ++
           (List.range (⌊(g - r) / angularSpacing⌋).toNat).map (mkSpawnedTrail piQ sp r)
         lastSpawnRotation :=
           some (r + (⌊(g - r) / angularSpacing⌋ : ℚ) * angularSpacing) } := by
  have hnn : (0:ℤ) ≤ ⌊(g - r) / angularSpacing⌋ :=
    Int.floor_nonneg.mpr (div_nonneg (by linarith) angularSpacing_pos.le)
  rcases hnn.lt_or_eq with hpos | heq
  · simp only [TrailSpawnerC.spawnTrails, hs, if_true, hr]
    rw [if_pos hpos]
  · simp only [TrailSpawnerC.spawnTrails, hs, if_true, hr]
    rw [if_neg (by rw [← heq]; exact lt_irrefl 0)]
    rw [← heq]
    simp

theorem chain_le_weaken {a a' : ℚ} {l : List ℚ} (h : List.Chain (· ≤ ·) a l)
    (hw : a' ≤ a) : List.Chain (· ≤ ·) a' l := by
  cases l with
  | nil => exact List.Chain.nil
  | cons b l =>
    rw [List.chain_cons] at h ⊢
    exact ⟨le_trans hw h.1, h.2⟩

theorem chain_le_getLastD {r : ℚ} {gs : List ℚ} (h : List.Chain (· ≤ ·) r gs) :
    r ≤ gs.getLastD r := by
  induction gs generalizing r with
  | nil => simp [List.getLastD]
  | cons g gs ih =>
    rw [List.chain_cons] at h
    have hstep : (g :: gs).getLastD r = gs.getLastD g := by
      cases gs <;> simp [List.getLastD]
    rw [hstep]
    exact le_trans h.1 (ih h.2)

theorem getLastD_irrel {gs : List ℚ} (hne : gs ≠ []) (a b : ℚ) :
    gs.getLastD a = gs.getLastD b := by
  cases gs with
  | nil => exact absurd rfl hne
  | cons x xs => cases xs <;> simp [List.getLastD]

theorem TrailSpawnerC.spawnTrailsRun_total (piQ : ℚ) :
    ∀ (gs : List ℚ) (sp : TrailSpawnerC) (r : ℚ),
    sp.isSpawning = true → sp.lastSpawnRotation = some r →
    List.Chain (· ≤ ·) r gs →
    (TrailSpawnerC.spawnTrailsRun piQ sp gs).trails.length
      = sp.trails.length + (⌊(gs.getLastD r - r) / angularSpacing⌋).toNat := by
  intro gs
  induction gs with
  | nil =>
    intro sp r _ _ _
    simp [TrailSpawnerC.spawnTrailsRun, List.getLastD]
  | cons g gs ih =>
    intro sp r hs hr hch
    rw [List.chain_cons] at hch
    obtain ⟨hrg, hch2⟩ := hch
    have hS := angularSpacing_pos
    have hSne : angularSpacing ≠ 0 := hS.ne'
    have heq := TrailSpawnerC.spawnTrails_eq piQ sp g r hs hr hrg
    have hfl : ((⌊(g - r) / angularSpacing⌋ : ℚ)) * angularSpacing ≤ g - r := by
      have hfle : ((⌊(g - r) / angularSpacing⌋ : ℚ)) ≤ (g - r) / angularSpacing :=
        Int.floor_le _
      calc ((⌊(g - r) / angularSpacing⌋ : ℚ)) * angularSpacing
          ≤ ((g - r) / angularSpacing) * angularSpacing :=
            mul_le_mul_of_nonneg_right hfle hS.le
        _ = g - r := div_mul_cancel₀ _ hSne
    have hr1g : r + (⌊(g - r) / angularSpacing⌋ : ℚ) * angularSpacing ≤ g := by linarith
    have hch1 : List.Chain (· ≤ ·)
        (r + (⌊(g - r) / angularSpacing⌋ : ℚ) * angularSpacing) gs :=
      chain_le_weaken hch2 hr1g
    rw [TrailSpawnerC.spawnTrailsRun, heq]
    have hihr := ih
      { sp with
         trails := sp.trails ++
           (List.range (⌊(g - r) / angularSpacing⌋).toNat).map (mkSpawnedTrail piQ sp r)
         lastSpawnRotation :=
           some (r + (⌊(g - r) / angularSpacing⌋ : ℚ) * angularSpacing) }
      (r + (⌊(g - r) / angularSpacing⌋ : ℚ) * angularSpacing)
      (by simpa using hs) rfl hch1
    rw [hihr]
    simp only [List.length_append, List.length_map, List.length_range]
    have hlast : (g :: gs).getLastD r = gs.getLastD g := by
      cases gs <;> simp [List.getLastD]
    rw [hlast]
    cases gs with
    | nil =>
      simp [List.getLastD]
    | cons g2 gs2 =>
      have hlast2 : (g2 :: gs2).getLastD
          (r + (⌊(g - r) / angularSpacing⌋ : ℚ) * angularSpacing)
          = (g2 :: gs2).getLastD g :=
        getLastD_irrel (by simp) _ _
      rw [hlast2]
      have hG : r + (⌊(g - r) / angularSpacing⌋ : ℚ) * angularSpacing
          ≤ (g2 :: gs2).getLastD g := by
        have h1 : r + (⌊(g - r) / angularSpacing⌋ : ℚ) * angularSpacing
            ≤ (g2 :: gs2).getLastD
              (r + (⌊(g - r) / angularSpacing⌋ : ℚ) * angularSpacing) :=
          chain_le_getLastD hch1
        rw [hlast2] at h1
        exact h1
      have hdiv : ((g2 :: gs2).getLastD g
            - (r + (⌊(g - r) / angularSpacing⌋ : ℚ) * angularSpacing)) / angularSpacing
          = ((g2 :: gs2).getLastD g - r) / angularSpacing
            - ((⌊(g - r) / angularSpacing⌋ : ℚ)) := by
        field_simp
        ring
      rw [hdiv]
      rw [Int.floor_sub_int]
      have h1 : (0:ℤ) ≤ ⌊(g - r) / angularSpacing⌋ :=
        Int.floor_nonneg.mpr (div_nonneg (by linarith) hS.le)
      have h2 : (0:ℤ) ≤ ⌊((g2 :: gs2).getLastD g - r) / angularSpacing⌋
          - ⌊(g - r) / angularSpacing⌋ := by
        rw [← Int.floor_sub_int]
        rw [← hdiv]
        exact Int.floor_nonneg.mpr (div_nonneg (by linarith) hS.le)
      omega

theorem TileC.runChecks_passed_getD :
    ∀ (zs : List ℚ) (t : TileC), t.hasPassedTarget = true →
    ∀ j, (TileC.runChecks t zs).getD j false = false := by
  intro zs
  induction zs with
  | nil =>
    intro t _ j
    simp [TileC.runChecks]
  | cons z zs ih =>
    intro t ht j
    rw [TileC.runChecks]
    have hstep : TileC.checkPassedTarget { t with zAbs := z } =
        (false, { t with zAbs := z }) := by
      rw [TileC.checkPassedTarget]
      simp [ht]
    rw [hstep]
    cases j with
    | zero => simp
    | succ j' =>
      simp only [List.getD_cons_succ]
      exact ih { t with zAbs := z } ht j'

theorem TileC.applyCoverages_fields :
    ∀ (cs : List (ℚ × ℚ × ℚ)) (t : TileC),
    (TileC.applyCoverages t cs).hasPassedTarget = t.hasPassedTarget
    ∧ (TileC.applyCoverages t cs).zAbs = t.zAbs
    ∧ (TileC.applyCoverages t cs).depth = t.depth
    ∧ (TileC.applyCoverages t cs).tileArea = t.tileArea := by
  intro cs
  induction cs with
  | nil =>
    intro t
    simp [TileC.applyCoverages]
  | cons c cs ih =>
    intro t
    rw [TileC.applyCoverages]
    have hone : (t.addTrailCoverage c.1 c.2.1 c.2.2).hasPassedTarget = t.hasPassedTarget
        ∧ (t.addTrailCoverage c.1 c.2.1 c.2.2).zAbs = t.zAbs
        ∧ (t.addTrailCoverage c.1 c.2.1 c.2.2).depth = t.depth
        ∧ (t.addTrailCoverage c.1 c.2.1 c.2.2).tileArea = t.tileArea := by
      rw [TileC.addTrailCoverage]
      split
      · exact ⟨rfl, rfl, rfl, rfl⟩
      · split
        · exact ⟨rfl, rfl, rfl, rfl⟩
        · exact ⟨rfl, rfl, rfl, rfl⟩

    obtain ⟨h1, h2, h3, h4⟩ := ih (t.addTrailCoverage c.1 c.2.1 c.2.2)
    exact ⟨h1.trans hone.1, h2.trans hone.2.1, h3.trans hone.2.2.1, h4.trans hone.2.2.2⟩

theorem TileC.applyCoverages_nonneg :
    ∀ (cs : List (ℚ × ℚ × ℚ)) (t : TileC), 0 ≤ t.totalCoverageArea →
    (∀ c ∈ cs, 0 ≤ c.2.2) →
    0 ≤ (TileC.applyCoverages t cs).totalCoverageArea := by
  intro cs
  induction cs with
  | nil =>
    intro t h0 _
    simpa [TileC.applyCoverages] using h0
  | cons c cs ih =>
    intro t h0 hh
    rw [TileC.applyCoverages]
    apply ih
    · rw [TileC.addTrailCoverage]
      split
      · exact h0
      · split
        · have hhc : 0 ≤ c.2.2 := hh c (by simp)
          have hov : 0 ≤ t.overlapWidth c.1 c.2.1 * c.2.2 :=
            mul_nonneg (le_max_left _ _) hhc
          simp only []
          linarith
        · exact h0
    · intro d hd
      exact hh d (by simp [hd])

/- ------------------------------------------------------------------ -/
/- Claim C2                                                            -/
/- ------------------------------------------------------------------ -/

/-- Claim C2: while spawning is active with recorded rotation r and
    ground rotation g ≥ r, spawnTrails emits exactly
    floor((g - r) / angularSpacing) trails at evenly spaced angles and
    advances lastSpawnRotation by exactly that many spacings, so the
    remainder carries into the next call; across any monotone sequence of
    frames the total number of emitted trails equals the floor of the
    total rotation delta over the spacing (no angle lost or double-spent). -/
theorem c2_trail_cadence (piQ : ℚ) (sp : TrailSpawnerC) (g r : ℚ)
    (hs : sp.isSpawning = true) (hr : sp.lastSpawnRotation = some r) (hle : r ≤ g) :
    (TrailSpawnerC.spawnTrails piQ sp g).trails.length
        = sp.trails.length + (⌊(g - r) / angularSpacing⌋).toNat
    ∧ (∀ i : ℕ, i < (⌊(g - r) / angularSpacing⌋).toNat →
        ((TrailSpawnerC.spawnTrails piQ sp g).trails.getD (sp.trails.length + i)
            ⟨0, 0, 0, 0, 0, false⟩).theta
          = r + ((i : ℚ) + 1) * angularSpacing + piQ / 2)
    ∧ (∀ i : ℕ, (mkSpawnedTrail piQ sp r (i + 1)).theta - (mkSpawnedTrail piQ sp r i).theta
        = angularSpacing)
    ∧ (TrailSpawnerC.spawnTrails piQ sp g).lastSpawnRotation
        = some (r + (⌊(g - r) / angularSpacing⌋ : ℚ) * angularSpacing)
    ∧ (∀ gs : List ℚ, List.Chain (· ≤ ·) r gs →
        (TrailSpawnerC.spawnTrailsRun piQ sp gs).trails.length
          = sp.trails.length + (⌊(gs.getLastD r - r) / angularSpacing⌋).toNat) := by
  have heq := TrailSpawnerC.spawnTrails_eq piQ sp g r hs hr hle
  refine ⟨?_, ?_, ?_, ?_, ?_⟩
  · rw [heq]
    simp
  · intro i hi
    rw [heq]
    simp [List.getD, List.getElem?_append_right, List.getElem?_range, hi, mkSpawnedTrail,
      List.getElem_append_right, List.getElem_map, List.getElem_range]
  · intro i
    simp only [mkSpawnedTrail]
    push_cast
    ring
  · rw [heq]
  · intro gs hch
    exact TrailSpawnerC.spawnTrailsRun_total piQ gs sp r hs hr hch

/-- Witness for C2: from rotation 0 to 0.001 with spacing 34/75025, floor
    gives 2 trails. -/
theorem c2_trail_cadence_witness :
    (TrailSpawnerC.spawnTrails 0 ⟨[], some 0, true, 1, 1⟩ (1/1000)).trails.length = 2 := by
  have h := (c2_trail_cadence 0 ⟨[], some 0, true, 1, 1⟩ (1/1000) 0 rfl rfl
    (by norm_num)).1
  rw [h]
  norm_num [angularSpacing, TRAIL_HEIGHT, SPHERE_RADIUS, HEIGHT_OFFSET]
  decide

/- ------------------------------------------------------------------ -/
/- Claim C5                                                            -/
/- ------------------------------------------------------------------ -/

theorem trailFramesChanged_le_one :
    ∀ (fs : List (ℚ × List TileC)) (tr : TrailC), trailFramesChanged tr fs ≤ 1 := by
  intro fs
  induction fs with
  | nil => intro tr; exact Nat.zero_le 1
  | cons f fs ih =>
    intro tr
    rw [trailFramesChanged]
    by_cases hch : (trailFrame tr f.1 f.2).2 ≠ f.2
    · rw [if_pos hch]
      have hL : (trailFrame tr f.1 f.2).1.isHighlighted = true := by
        rw [trailFrame] at hch ⊢
        by_cases hh : tr.isHighlighted
        · rw [if_pos hh] at hch
          exact absurd rfl hch
        · rw [if_neg hh] at hch ⊢
          exact checkTrailTiles_changed_highlighted tr f.1 f.2 hch
      rw [trailFramesChanged_highlighted _ hL fs]
    · rw [if_neg hch]
      simpa using ih (trailFrame tr f.1 f.2).1

/-- Claim C5: a trail contributes coverage to at most one tile over its
    entire lifetime; when it contributes, the recipient is the first still
    clickable (not-yet-passed) tile of matching width class whose z bounds
    contain the trail's position with x overlap, and the contributed area
    is the actual geometric x-intersection width times TRAIL_HEIGHT —
    never the full trail width when the overlap is only partial. -/
theorem c5_trail_single_tile (tr : TrailC) (trZ : ℚ) (tiles pre post : List TileC)
    (t : TileC) :
    (∀ fs : List (ℚ × List TileC), trailFramesChanged tr fs ≤ 1)
    ∧ (tr.isHighlighted = true → trailFrame tr trZ tiles = (tr, tiles))
    ∧ (tr.isHighlighted = false → (∀ u ∈ tiles, ¬ trailMatches tr trZ u) →
        trailFrame tr trZ tiles = (tr, tiles))
    ∧ (tr.isHighlighted = false → tiles = pre ++ t :: post →
        (∀ u ∈ pre, ¬ trailMatches tr trZ u) → trailMatches tr trZ t →
        trailFrame tr trZ tiles =
          ({ tr with isHighlighted := true },
           pre ++ t.addTrailCoverage tr.x tr.width TRAIL_HEIGHT :: post))
    ∧ (t.hasPassedTarget = false →
        (t.addTrailCoverage tr.x tr.width TRAIL_HEIGHT).totalCoverageArea
          = t.totalCoverageArea + t.overlapWidth tr.x tr.width * TRAIL_HEIGHT)
    ∧ (0 ≤ tr.width → t.overlapWidth tr.x tr.width ≤ tr.width)
    ∧ (0 < tr.width →
        ¬ (t.xBoundsLeft ≤ tr.x - tr.width / 2 ∧ tr.x + tr.width / 2 ≤ t.xBoundsRight) →
        t.overlapWidth tr.x tr.width < tr.width) := by
  refine ⟨fun fs => trailFramesChanged_le_one fs tr, ?_, ?_, ?_, ?_, ?_, ?_⟩
  · intro h
    rw [trailFrame, if_pos h]
  · intro h hnone
    rw [trailFrame, if_neg (by simp [h])]
    exact checkTrailTiles_nomatch tr trZ tiles hnone
  · intro h htiles hpre hm
    rw [trailFrame, if_neg (by simp [h]), htiles]
    exact checkTrailTiles_firstmatch tr trZ pre t post hpre hm
  · intro hp
    rw [TileC.addTrailCoverage, if_neg (by simp [hp])]
    by_cases hov : 0 < t.overlapWidth tr.x tr.width
    · rw [if_pos hov]
    · rw [if_neg hov]
      have h0 : (0:ℚ) ≤ t.overlapWidth tr.x tr.width := by
        unfold TileC.overlapWidth
        exact le_max_left _ _
      have hz : t.overlapWidth tr.x tr.width = 0 := le_antisymm (not_lt.mp hov) h0
      rw [hz]
      simp
  · intro hw
    unfold TileC.overlapWidth TileC.xBoundsLeft TileC.xBoundsRight
    apply max_le hw
    have h1 := min_le_right (t.x + t.width / 2) (tr.x + tr.width / 2)
    have h2 := le_max_right (t.x - t.width / 2) (tr.x - tr.width / 2)
    linarith
  · intro hw hnot
    unfold TileC.overlapWidth TileC.xBoundsLeft TileC.xBoundsRight
    unfold TileC.xBoundsLeft TileC.xBoundsRight at hnot
    rcases not_and_or.mp hnot with h1 | h2
    · push_neg at h1
      apply max_lt hw
      have ha := min_le_right (t.x + t.width / 2) (tr.x + tr.width / 2)
      have hb := le_max_left (t.x - t.width / 2) (tr.x - tr.width / 2)
      linarith
    · push_neg at h2
      apply max_lt hw
      have ha := min_le_left (t.x + t.width / 2) (tr.x + tr.width / 2)
      have hb := le_max_right (t.x - t.width / 2) (tr.x - tr.width / 2)
      linarith

/-- Witness for C5: a trail matching the second of two tiles (the first
    has a different width class). -/
theorem c5_trail_single_tile_witness :
    trailFrame ⟨0, 3/2, 1, 0, 0, false⟩ (-1)
        [⟨0, 4/5, 2, 0, true, false, 0, 8/5, 0, -1⟩,
         ⟨1/2, 3/2, 2, 1, true, false, 0, 3, 0, -1⟩]
      = (⟨0, 3/2, 1, 0, 0, true⟩,
         [⟨0, 4/5, 2, 0, true, false, 0, 8/5, 0, -1⟩,
          TileC.addTrailCoverage ⟨1/2, 3/2, 2, 1, true, false, 0, 3, 0, -1⟩
            0 (3/2) TRAIL_HEIGHT]) := by
  have h := (c5_trail_single_tile ⟨0, 3/2, 1, 0, 0, false⟩ (-1)
      [⟨0, 4/5, 2, 0, true, false, 0, 8/5, 0, -1⟩,
       ⟨1/2, 3/2, 2, 1, true, false, 0, 3, 0, -1⟩]
      [⟨0, 4/5, 2, 0, true, false, 0, 8/5, 0, -1⟩] []
      ⟨1/2, 3/2, 2, 1, true, false, 0, 3, 0, -1⟩).2.2.2.1
  exact h rfl rfl
    (by
      intro u hu
      simp only [List.mem_singleton] at hu
      rw [hu]
      intro hmatch
      exact absurd hmatch.2.1 (by norm_num [trailMatches]))
    (by
      refine ⟨rfl, rfl, ⟨?_, ?_⟩, ?_⟩
      · norm_num [TileC.zBoundsBack]
      · norm_num [TileC.zBoundsFront]
      · rw [abs_lt]
        constructor <;> norm_num)

/- ------------------------------------------------------------------ -/
/- Claim C3                                                            -/
/- ------------------------------------------------------------------ -/

/-- Claim C3: over any sequence of per-frame absolute z positions,
    checkPassedTarget returns true exactly at the first call at which the
    tile's trailing (back) edge has crossed the scoring plane (back edge
    z coordinate strictly positive), and false on every call before and
    after that. -/
theorem c3_passed_target_once (t : TileC) (zs : List ℚ) (j : ℕ)
    (ht : t.hasPassedTarget = false) (hj : j < zs.length) :
    (TileC.runChecks t zs).getD j false = true ↔
      (0 < zs.getD j 0 - t.depth / 2
       ∧ ∀ k < j, ¬ (0 < zs.getD k 0 - t.depth / 2)) := by
  induction zs generalizing t j with
  | nil => exact absurd hj (by simp)
  | cons z zs ih =>
    rw [TileC.runChecks]
    by_cases hz : 0 < z - t.depth / 2
    · have hstep : TileC.checkPassedTarget { t with zAbs := z } =
          (true, { t with
                    clickable := false
                    hasPassedTarget := true
                    coveragePercent := min 100 (t.totalCoverageArea / t.tileArea * 100)
                    zAbs := z }) := by
        rw [TileC.checkPassedTarget]
        simp only [ht, Bool.false_eq_true, if_false, TileC.zBoundsBack]
        rw [if_pos (by simpa using hz)]
      rw [hstep]
      cases j with
      | zero =>
        simp only [List.getD_cons_zero]
        constructor
        · intro _
          exact ⟨by simpa using hz, by intro k hk; exact absurd hk (Nat.not_lt_zero k)⟩
        · intro _
          trivial
      | succ j' =>
        simp only [List.getD_cons_succ]
        rw [TileC.runChecks_passed_getD zs _ rfl j']
        constructor
        · intro hfalse
          exact absurd hfalse (by simp)
        · intro ⟨_, hall⟩
          exact absurd hz (hall 0 (Nat.succ_pos j'))
    · have hstep : TileC.checkPassedTarget { t with zAbs := z } =
          (false, { t with zAbs := z }) := by
        rw [TileC.checkPassedTarget]
        simp only [ht, Bool.false_eq_true, if_false, TileC.zBoundsBack]
        rw [if_neg (by simpa using hz)]
      rw [hstep]
      cases j with
      | zero =>
        simp only [List.getD_cons_zero]
        constructor
        · intro habs
          exact absurd habs (by simp)
        · intro ⟨hz0, _⟩
          exact absurd hz0 hz
      | succ j' =>
        simp only [List.getD_cons_succ]
        have hlen : j' < zs.length := Nat.lt_of_succ_lt_succ hj
        rw [ih { t with zAbs := z } j' (by simpa using ht) hlen]
        constructor
        · intro ⟨hzj, hall⟩
          refine ⟨hzj, ?_⟩
          intro k hk
          cases k with
          | zero => simpa using hz
          | succ k' =>
            simp only [List.getD_cons_succ]
            exact hall k' (Nat.lt_of_succ_lt_succ hk)
        · intro ⟨hzj, hall⟩
          refine ⟨by simpa using hzj, ?_⟩
          intro k hk
          have := hall (k + 1) (Nat.succ_lt_succ hk)
          simpa using this

/-- Witness for C3: depth 1, z sequence [-1, 1, 2], index 1 is the first
    crossing. -/
theorem c3_passed_target_once_witness :
    (TileC.runChecks ⟨0, 3/2, 1, 1, true, false, 0, 3/2, 0, 0⟩ [-1, 1, 2]).getD 1 false
      = true :=
  (c3_passed_target_once ⟨0, 3/2, 1, 1, true, false, 0, 3/2, 0, 0⟩ [-1, 1, 2] 1 rfl
      (by norm_num)).mpr
    ⟨by norm_num, by
      intro k hk
      interval_cases k
      norm_num⟩

/- ------------------------------------------------------------------ -/
/- Claim C4                                                            -/
/- ------------------------------------------------------------------ -/

/-- Claim C4: for every tile and every sequence of addTrailCoverage calls
    before passing, the coveragePercent frozen by checkPassedTarget equals
    min(100, 100 * totalCoverageArea / tileArea) and lies between 0 and
    100, even when the accumulated overlap area nominally exceeds the
    tile's area. -/
theorem c4_coverage_percent_clamped (t : TileC) (cs : List (ℚ × ℚ × ℚ))
    (ht : t.hasPassedTarget = false) (h0 : t.totalCoverageArea = 0)
    (harea : 0 < t.tileArea) (hh : ∀ c ∈ cs, 0 ≤ c.2.2)
    (hz : 0 < t.zAbs - t.depth / 2) :
    ((TileC.applyCoverages t cs).checkPassedTarget).1 = true
    ∧ ((TileC.applyCoverages t cs).checkPassedTarget).2.coveragePercent
        = min 100 (100 * (TileC.applyCoverages t cs).totalCoverageArea / t.tileArea)
    ∧ 0 ≤ ((TileC.applyCoverages t cs).checkPassedTarget).2.coveragePercent
    ∧ ((TileC.applyCoverages t cs).checkPassedTarget).2.coveragePercent ≤ 100 := by
  obtain ⟨hp, hza, hd, hta⟩ := TileC.applyCoverages_fields cs t
  have hcn : 0 ≤ (TileC.applyCoverages t cs).totalCoverageArea :=
    TileC.applyCoverages_nonneg cs t (by rw [h0]) hh
  have hcheck : ((TileC.applyCoverages t cs).checkPassedTarget) =
      (true, { TileC.applyCoverages t cs with
               hasPassedTarget := true, clickable := false,
               coveragePercent := min 100 ((TileC.applyCoverages t cs).totalCoverageArea /
                 (TileC.applyCoverages t cs).tileArea * 100) }) := by
    rw [TileC.checkPassedTarget]
    rw [if_neg (by rw [hp, ht]; simp)]
    rw [if_pos (by rw [TileC.zBoundsBack, hza, hd]; exact hz)]
  refine ⟨by rw [hcheck], ?_, ?_, ?_⟩
  · rw [hcheck]
    simp only [hta]
    congr 1
    field_simp
    ring
  · rw [hcheck]
    simp only [hta]
    apply le_min
    · norm_num
    · positivity
  · rw [hcheck]
    exact min_le_left _ _

/-- Witness for C4: a full-width trail segment accumulated once. -/
theorem c4_coverage_percent_clamped_witness :
    ((TileC.applyCoverages ⟨0, 3/2, 2, 1, true, false, 0, 3, 0, 2⟩
        [(0, 3/2, 17/100)]).checkPassedTarget).1 = true
    ∧ ((TileC.applyCoverages ⟨0, 3/2, 2, 1, true, false, 0, 3, 0, 2⟩
        [(0, 3/2, 17/100)]).checkPassedTarget).2.coveragePercent ≤ 100 := by
  have h := c4_coverage_percent_clamped ⟨0, 3/2, 2, 1, true, false, 0, 3, 0, 2⟩
    [(0, 3/2, 17/100)] rfl rfl (by norm_num)
    (by intro c hc; simp at hc; rw [hc]; norm_num) (by norm_num)
  exact ⟨h.1, h.2.2.2⟩

theorem TileH.holdRun_accum (speed : ℚ) (hsp : 0 ≤ speed) (ds : List ℚ) :
    ∀ t : TileH, (∀ d ∈ ds, 0 ≤ d) → t.isBeingHit = true → t.clickable = true →
    0 < t.depth →
    t.hitProgress + ds.sum * (speed / t.depth) < 1 →
    TileH.holdRun speed t ds =
      { t with hitProgress := t.hitProgress + ds.sum * (speed / t.depth) } := by
  induction ds with
  | nil =>
    intro t _ _ _ _ _
    simp [TileH.holdRun]
  | cons d ds ih =>
    intro t hpos hbh hcl hd hlt
    have hd0 : 0 ≤ d := hpos d (by simp)
    have hrest : ∀ x ∈ ds, 0 ≤ x := fun x hx => hpos x (by simp [hx])
    have hsum : 0 ≤ ds.sum := List.sum_nonneg hrest
    have hnn : 0 ≤ speed / t.depth := div_nonneg hsp hd.le
    -- progress after the first step
    have hstep : t.updateHit d speed =
        { t with hitProgress := t.hitProgress + d * (speed / t.depth) } := by
      rw [TileH.updateHit]
      rw [hbh, hcl]
      simp only [Bool.and_self, if_true]
      have hnotdone : ¬ (1 ≤ t.hitProgress + d * (speed / t.depth)) := by
        intro hge
        -- contradiction with hlt and nonnegativity of the remaining deltas
        have hmul : d * (speed / t.depth) ≤ (d + ds.sum) * (speed / t.depth) := by
          apply mul_le_mul_of_nonneg_right _ hnn
          linarith
        simp only [List.sum_cons] at hlt
        linarith
      simp only [hnotdone, if_false]
    rw [TileH.holdRun, hstep]
    have hlt' : t.hitProgress + d * (speed / t.depth) + ds.sum * (speed / t.depth) < 1 := by
      simp only [List.sum_cons] at hlt
      have : (d + ds.sum) * (speed / t.depth)
          = d * (speed / t.depth) + ds.sum * (speed / t.depth) := by ring
      linarith [hlt, this.symm.le]
    have ihr := ih { t with hitProgress := t.hitProgress + d * (speed / t.depth) }
      hrest hbh hcl hd (by simpa using hlt')
    rw [ihr]
    simp only [List.sum_cons]
    congr 1
    ring

/- ------------------------------------------------------------------ -/
/- Claim C6                                                            -/
/- ------------------------------------------------------------------ -/

/-- Claim C6: for the ramped-interval spawner (main.js), getSpawnInterval
    at gameTime 0 equals startInterval (5); for gameTime ≥ rampDuration
    (120) it equals minInterval (1); it is monotonically non-increasing in
    gameTime; it never reaches or goes below zero; and the ramp progress
    is clamped to the interval from 0 to 1. -/
theorem c6_ramped_interval (t u : ℚ) (ht : 0 ≤ t) (htu : t ≤ u) :
    TileSpawner.getSpawnInterval { TileSpawner.init (1/30) with gameTime := 0 } = 5
    ∧ (120 ≤ t →
        TileSpawner.getSpawnInterval { TileSpawner.init (1/30) with gameTime := t } = 1)
    ∧ TileSpawner.getSpawnInterval { TileSpawner.init (1/30) with gameTime := u }
        ≤ TileSpawner.getSpawnInterval { TileSpawner.init (1/30) with gameTime := t }
    ∧ 0 < TileSpawner.getSpawnInterval { TileSpawner.init (1/30) with gameTime := t }
    ∧ 0 ≤ TileSpawner.rampProgress { TileSpawner.init (1/30) with gameTime := t }
    ∧ TileSpawner.rampProgress { TileSpawner.init (1/30) with gameTime := t } ≤ 1 := by
  simp only [TileSpawner.getSpawnInterval, TileSpawner.rampProgress, TileSpawner.init]
  refine ⟨by norm_num, ?_, ?_, ?_, ?_, ?_⟩
  · intro h120
    have : (1:ℚ) ≤ t / 120 := by linarith
    rw [min_eq_right this]
    norm_num
  · have hmono : min (t / 120) 1 ≤ min (u / 120) 1 := by
      apply min_le_min _ le_rfl
      linarith
    nlinarith [hmono]
  · have : min (t / 120) 1 ≤ 1 := min_le_right _ _
    nlinarith [this]
  · apply le_min
    · positivity
    · norm_num
  · exact min_le_right _ _

/-- Witness for C6 at t = 130, u = 200. -/
theorem c6_ramped_interval_witness :
    TileSpawner.getSpawnInterval { TileSpawner.init (1/30) with gameTime := (130:ℚ) } = 1
    ∧ TileSpawner.getSpawnInterval { TileSpawner.init (1/30) with gameTime := (200:ℚ) }
        ≤ TileSpawner.getSpawnInterval { TileSpawner.init (1/30) with gameTime := (130:ℚ) } :=
  ⟨(c6_ramped_interval 130 200 (by norm_num) (by norm_num)).2.1 (by norm_num),
   (c6_ramped_interval 130 200 (by norm_num) (by norm_num)).2.2.1⟩

/- ------------------------------------------------------------------ -/
/- Claim C7                                                            -/
/- ------------------------------------------------------------------ -/

/-- Claim C7: in hold-to-hit mode, updateHit increases hitProgress by
    deltaTime * (tileSpeed / depth) while the tile is being hit and still
    collidable, and stopHit subtracts exactly 0.2, clamped at zero; for a
    tile with depth 4 and tileSpeed 10, any continuous hold totalling 0.3
    seconds yields hitProgress 0.75, and a subsequent stopHit yields 0.55. -/
theorem c7_hold_to_hit (t : TileH) (dt speed : ℚ) (ds : List ℚ)
    (hbh : t.isBeingHit = true) (hcl : t.clickable = true)
    (hpos : ∀ d ∈ ds, 0 ≤ d) (hsum : ds.sum = 3/10) :
    (t.updateHit dt speed).hitProgress = t.hitProgress + dt * (speed / t.depth)
    ∧ t.stopHit.hitProgress = max 0 (t.hitProgress - 1/5)
    ∧ 0 ≤ t.stopHit.hitProgress
    ∧ (TileH.holdRun 10 ⟨4, true, 0, true, false⟩ ds).hitProgress = 3/4
    ∧ (TileH.holdRun 10 ⟨4, true, 0, true, false⟩ ds).stopHit.hitProgress = 11/20 := by
  have hrun : TileH.holdRun 10 ⟨4, true, 0, true, false⟩ ds =
      { depth := 4, clickable := true, hitProgress := 0 + ds.sum * (10 / 4),
        isBeingHit := true, scored := false } := by
    exact TileH.holdRun_accum 10 (by norm_num) ds ⟨4, true, 0, true, false⟩ hpos rfl rfl
      (by norm_num) (by rw [hsum]; norm_num)
  refine ⟨?_, ?_, ?_, ?_, ?_⟩
  · rw [TileH.updateHit, hbh, hcl]
    simp only [Bool.and_self, if_true]
    split <;> simp [TileH.completeHit]
  · rfl
  · simp [TileH.stopHit]
  · rw [hrun, hsum]
    norm_num
  · rw [hrun, hsum]
    simp [TileH.stopHit]
    norm_num

/-- Witness for C7: a single 0.3 second frame. -/
theorem c7_hold_to_hit_witness :
    (TileH.holdRun 10 ⟨4, true, 0, true, false⟩ [3/10]).hitProgress = 3/4
    ∧ (TileH.holdRun 10 ⟨4, true, 0, true, false⟩ [3/10]).stopHit.hitProgress = 11/20 :=
  ⟨(c7_hold_to_hit ⟨4, true, 0, true, false⟩ 0 10 [3/10] rfl rfl
      (by intro d hd; simp at hd; rw [hd]; norm_num) (by simp)).2.2.2.1,
   (c7_hold_to_hit ⟨4, true, 0, true, false⟩ 0 10 [3/10] rfl rfl
      (by intro d hd; simp at hd; rw [hd]; norm_num) (by simp)).2.2.2.2⟩

/- ------------------------------------------------------------------ -/
/- Claim C8                                                            -/
/- ------------------------------------------------------------------ -/

/-- Claim C8: setTargetWidthIndex with an out-of-range index or while
    hitting silently leaves the whole game state unchanged; for a valid
    index while not hitting it sets targetWidthIndex and targetWidth to
    the requested width and changes nothing else. -/
theorem c8_set_target_width_index (g : GameState) (i : ℤ) :
    ((i < 0 ∨ (TILE_WIDTHS.length : ℤ) ≤ i ∨ g.isHitting = true) →
      GameState.setTargetWidthIndex g i = g)
    ∧ (0 ≤ i → i < (TILE_WIDTHS.length : ℤ) → g.isHitting = false →
        GameState.setTargetWidthIndex g i =
          { g with targetWidthIndex := i, targetWidth := TILE_WIDTHS.getD i.toNat 0 }) := by
  constructor
  · intro h
    rw [GameState.setTargetWidthIndex]
    rcases h with h | h | h
    · rw [if_pos (Or.inl h)]
    · rw [if_pos (Or.inr h)]
    · by_cases hrange : i < 0 ∨ (TILE_WIDTHS.length : ℤ) ≤ i
      · rw [if_pos hrange]
      · rw [if_neg hrange, if_pos h]
  · intro h0 hlt hnh
    rw [GameState.setTargetWidthIndex]
    rw [if_neg (not_or.mpr ⟨not_lt.mpr h0, not_le.mpr hlt⟩)]
    rw [if_neg (by rw [hnh]; simp)]

/-- Witness for C8: index 5 is rejected, index 1 selects width 1.5. -/
theorem c8_set_target_width_index_witness :
    GameState.setTargetWidthIndex GameState.init 5 = GameState.init
    ∧ (GameState.setTargetWidthIndex GameState.init 1).targetWidthIndex = 1
    ∧ (GameState.setTargetWidthIndex GameState.init 1).targetWidth = 3/2 := by
  refine ⟨?_, ?_, ?_⟩
  · exact (c8_set_target_width_index GameState.init 5).1
      (Or.inr (Or.inl (by norm_num [TILE_WIDTHS])))
  · rw [(c8_set_target_width_index GameState.init 1).2 (by norm_num)
      (by norm_num [TILE_WIDTHS]) rfl]
  · rw [(c8_set_target_width_index GameState.init 1).2 (by norm_num)
      (by norm_num [TILE_WIDTHS]) rfl]
    norm_num [TILE_WIDTHS]

/- ------------------------------------------------------------------ -/
/- Claim C9                                                            -/
/- ------------------------------------------------------------------ -/

/-- Claim C9: the placement parts of main.js Tile.createMesh and part_003
    Trail.createMesh are the same spherical placement function of lane
    offset x and angle theta — position (x, r sin theta, r cos theta)
    with r = sqrt(sphereRadius^2 - x^2) + heightOffset and rotation
    -theta about the lane axis — the tile merely evaluating it at
    spawnTheta plus the fixed 120-degree lead angle. -/
theorem c9_placement_refinement (P : TrigPrims) (piQ x theta spawnTheta : ℚ) :
    trailCreateMeshPlacement P x theta = sphericalPlacementSpec P x theta
    ∧ tileCreateMeshPlacement P piQ x spawnTheta
        = sphericalPlacementSpec P x (spawnTheta + 120 * piQ / 180) :=
  ⟨rfl, rfl⟩

/- ------------------------------------------------------------------ -/
/- Claim C10                                                           -/
/- ------------------------------------------------------------------ -/

/-- Claim C10: restart preserves the session highScore (for any reachable
    state, where the high score is nonnegative), while resetting score to
    0, lives to 3, the gameOver/paused/isHitting flags, the tile list,
    the target zone, the ground rotation and both spawners. -/
theorem c10_restart_preserves_high_score (g : GameState) (h : 0 ≤ g.highScore) :
    (GameState.restart g).highScore = g.highScore
    ∧ (GameState.restart g).score = 0
    ∧ (GameState.restart g).lives = 3
    ∧ (GameState.restart g).gameOver = false
    ∧ (GameState.restart g).paused = false
    ∧ (GameState.restart g).isHitting = false
    ∧ (GameState.restart g).tiles = []
    ∧ (GameState.restart g).targetWidthIndex = 0
    ∧ (GameState.restart g).targetWidth = TILE_WIDTHS.getD 0 0
    ∧ (GameState.restart g).targetZoneX = 0
    ∧ (GameState.restart g).groundRotationX = 0
    ∧ (GameState.restart g).spawner = TileSpawner.reset g.spawner
    ∧ (GameState.restart g).trailSpawner = TrailSpawnerC.reset g.trailSpawner := by
  have hnot : ¬ (g.highScore < 0) := not_lt.mpr h
  simp only [GameState.restart, GameState.updateScore]
  rw [if_neg (by simpa using hnot)]
  simp

/-- Witness for C10 at a mid-game state with highScore 42. -/
theorem c10_restart_preserves_high_score_witness :
    (GameState.restart { GameState.init with highScore := 42, score := 17 }).highScore = 42
    ∧ (GameState.restart { GameState.init with highScore := 42, score := 17 }).score = 0 :=
  ⟨(c10_restart_preserves_high_score
      { GameState.init with highScore := 42, score := 17 } (by norm_num)).1,
   (c10_restart_preserves_high_score
      { GameState.init with highScore := 42, score := 17 } (by norm_num)).2.1⟩

/- ------------------------------------------------------------------ -/
/- Claim C1                                                            -/
/- ------------------------------------------------------------------ -/

theorem SpawnerF.runCount_le (ds : List ℚ) :
    ∀ s : SpawnerF, 0 ≤ s.timeSinceLastSpawn → (∀ d ∈ ds, 0 ≤ d) →
    ((SpawnerF.runCount s ds).2 : ℚ) * s.spawnInterval
        + (SpawnerF.runCount s ds).1.timeSinceLastSpawn
      ≤ s.timeSinceLastSpawn + ds.sum
    ∧ 0 ≤ (SpawnerF.runCount s ds).1.timeSinceLastSpawn := by
  induction ds with
  | nil =>
    intro s h0 _
    simp only [SpawnerF.runCount]
    constructor
    · simp
    · exact h0
  | cons d ds ih =>
    intro s h0 hpos
    have hd : 0 ≤ d := hpos d (by simp)
    have hrest : ∀ x ∈ ds, 0 ≤ x := fun x hx => hpos x (by simp [hx])
    by_cases hsp : s.spawnInterval ≤ s.timeSinceLastSpawn + d
    · have hupd : s.update d =
          ({ s with timeSinceLastSpawn := 0,
                    currentSpawnZ := s.currentSpawnZ - s.tileSpeed * s.spawnInterval },
           true) := by
        rw [SpawnerF.update, if_pos hsp]
      rw [SpawnerF.runCount, hupd]
      have hih := ih { s with timeSinceLastSpawn := 0,
                              currentSpawnZ := s.currentSpawnZ - s.tileSpeed * s.spawnInterval }
        le_rfl hrest
      simp only at hih ⊢
      obtain ⟨hih1, hih2⟩ := hih
      refine ⟨?_, hih2⟩
      push_cast
      simp only [List.sum_cons]
      nlinarith [hih1]
    · have hupd : s.update d = ({ s with timeSinceLastSpawn := s.timeSinceLastSpawn + d },
          false) := by
        rw [SpawnerF.update, if_neg hsp]
      rw [SpawnerF.runCount, hupd]
      have hih := ih { s with timeSinceLastSpawn := s.timeSinceLastSpawn + d }
        (by simp only []; linarith) hrest
      simp only at hih ⊢
      obtain ⟨hih1, hih2⟩ := hih
      refine ⟨?_, hih2⟩
      push_cast
      simp only [List.sum_cons]
      linarith

/-- Counterexample to Claim C1 as stated: with the fixed-interval spawner
    of tile.js (interval 1.5), the positive delta sequences [3] and
    [1.5, 1.5] have the same total elapsed time but emit 1 and 2 tiles
    respectively, because the accumulator resets to zero on spawn and the
    overshoot is discarded. -/
theorem c1_counterexample :
    SpawnerF.countTiles SpawnerF.mkDefault [3] = 1
    ∧ SpawnerF.countTiles SpawnerF.mkDefault [3/2, 3/2] = 2
    ∧ ([3] : List ℚ).sum = ([3/2, 3/2] : List ℚ).sum
    ∧ (0:ℚ) < 3 ∧ (0:ℚ) < 3/2 := by
  refine ⟨?_, ?_, by norm_num, by norm_num, by norm_num⟩
  · norm_num [SpawnerF.countTiles, SpawnerF.runCount, SpawnerF.update, SpawnerF.mkDefault]
  · norm_num [SpawnerF.countTiles, SpawnerF.runCount, SpawnerF.update, SpawnerF.mkDefault]

/-- Claim C1 (amended): tile counts are not invariant across deltaTime
    sequences of equal total time, because the accumulator is reset to
    zero on spawn and overshoot is discarded; what holds is the bound:
    from a freshly reset spawner, over any sequence of nonnegative deltas
    the emitted count n satisfies n * spawnInterval ≤ total elapsed time. -/
theorem c1_amended_spawn_count_bound (s : SpawnerF) (ds : List ℚ)
    (h0 : s.timeSinceLastSpawn = 0) (hpos : ∀ d ∈ ds, 0 ≤ d) :
    (SpawnerF.countTiles s ds : ℚ) * s.spawnInterval ≤ ds.sum := by
  have h := SpawnerF.runCount_le ds s (by rw [h0]) hpos
  rw [h0] at h
  obtain ⟨h1, h2⟩ := h
  rw [SpawnerF.countTiles]
  linarith

/-- Witness for the amended C1 at the default spawner over [3]. -/
theorem c1_amended_spawn_count_bound_witness :
    (SpawnerF.countTiles SpawnerF.mkDefault [3] : ℚ)
        * SpawnerF.mkDefault.spawnInterval ≤ ([3] : List ℚ).sum :=
  c1_amended_spawn_count_bound SpawnerF.mkDefault [3] rfl
    (by
      intro d hd
      simp only [List.mem_singleton] at hd
      rw [hd]
      norm_num)

end Radarsat
